import Mathlib

/-!
# TableWithFilters: the filter engine of `src/Components/Table.js`

A shallow embedding of the `Table` component:

* `filterData` with its local helper `formatDate` (lines 5-24),
* the category list computed in the `useEffect` hook (lines 41-46),
* the state cells and the handlers `handleChange`, `handleDelete`,
  `resetFilters` and the dropdown toggle (lines 29-84 and 135), as functions
  on a `TableState`,
* the same handlers over a heap of arrays (`World`), where the seed array
  `initialData` and the arrays built by `filter` are distinct objects.

JavaScript strings are Lean `String`s, arrays are `List`s.  The two library
functions whose full definition lives outside the repository
(`String.prototype.toLowerCase` and `parseFloat`) are fields of a `JSEnv`, and
every general theorem holds for an arbitrary `JSEnv`.  The numeric fields of a
record (`price`, `rating`) are finite numbers, embedded in `ℚ`; comparison of
finite doubles agrees with comparison of the rationals they denote.
-/

namespace TableWithFilters

/-! ## Data model -/

/-- Value of a call to `parseFloat`: a finite number, an infinity, or `NaN`. -/
inductive JSNumber where
  | nan
  | negInf
  | fin (q : ℚ)
  | posInf
  deriving DecidableEq

/-- Library functions that `Table.js` calls and does not define. -/
structure JSEnv where
  /-- Stands for `String.prototype.toLowerCase`. -/
  toLowerCase : String → String
  /-- Stands for the global `parseFloat`. -/
  parseFloat : String → JSNumber

/-- One element of the `data` array.  `ref` is the identity of the object (two
objects with equal fields can still be different objects), the other fields
are the properties read by `Table.js` and its test. -/
structure Record where
  ref : Nat
  id : Nat
  name : String
  category : String
  date : String
  price : ℚ
  rating : ℚ
  deriving DecidableEq

/-- The `filters` state object of `Table` (lines 31-37). -/
structure Filters where
  name : String
  categories : List String
  date : String
  price : String
  minRating : String
  deriving DecidableEq

/-- The object passed to `useState` for `filters` and set again by
`resetFilters` (lines 31-37 and 77-83). -/
def defaultFilters : Filters :=
  { name := "", categories := [], date := "", price := "Any", minRating := "Any" }

/-! ## String helpers used by `filterData` -/

/-- The call `s.split(sep)` for a one-character separator, on the characters of `s`:
the pieces between consecutive occurrences of `sep` (always at least one piece). -/
def split (sep : Char) : List Char → List (List Char)
  | [] => [[]]
  | c :: cs =>
    if c = sep then [] :: split sep cs
    else
      match split sep cs with
      | [] => [[c]]
      | p :: ps => (c :: p) :: ps

/-- What a template literal prints for a destructured array element: the
string itself, or the text `undefined` when the array was too short. -/
def interpolate : Option (List Char) → List Char
  | some s => s
  | none => "undefined".toList

/-- The helper `formatDate` (lines 8-11): destructure the first three pieces of
`dateString.split("-")` and print them in reverse order. -/
def formatDate (dateString : String) : String :=
  let parts := split '-' dateString.toList
  let year := parts[0]?
  let month := parts[1]?
  let day := parts[2]?
  String.mk (interpolate day ++ '-' :: (interpolate month ++ '-' :: interpolate year))

/-- The call `s.includes(t)` on strings: `t` occurs in `s` as a contiguous substring. -/
def includes (s t : String) : Bool :=
  s.toList.tails.any (fun u => t.toList.isPrefixOf u)

/-- The comparison `x >= y` for a finite number `x` and a JavaScript number `y`. -/
def geNumber (x : ℚ) : JSNumber → Bool
  | JSNumber.nan => false
  | JSNumber.negInf => true
  | JSNumber.fin q => decide (q ≤ x)
  | JSNumber.posInf => false

/-! ## `filterData` -/

/-- The arrow function given to `data.filter` (lines 15-22). -/
def keeps (env : JSEnv) (filters : Filters) (item : Record) : Bool :=
  (filters.name == "" ||
      includes (env.toLowerCase item.name) (env.toLowerCase filters.name)) &&
  (filters.categories.length == 0 ||
      filters.categories.contains (env.toLowerCase item.category)) &&
  (filters.date == "" || item.date == formatDate filters.date) &&
  (filters.price == "Any" ||
      (if filters.price == "High" then decide (500 ≤ item.price)
       else decide (item.price < 500))) &&
  (filters.minRating == "Any" ||
      geNumber item.rating (env.parseFloat filters.minRating))

/-- The function `filterData` (lines 5-24): the elements of `data` that pass the
predicate, in their order. -/
def filterData (env : JSEnv) (data : List Record) (filters : Filters) : List Record :=
  data.filter (keeps env filters)

/-! ## The category list -/

/-- The expression `Array.from(new Set(xs))`: the elements are added to the set from left to
right, an element already in the set is skipped, and the set lists its
elements in insertion order. -/
def arrayFromSet (xs : List String) : List String :=
  xs.foldl (fun set x => if set.contains x then set else set ++ [x]) []

/-- The constant `uniqueCategories` of the `useEffect` hook (lines 42-44). -/
def uniqueCategories (env : JSEnv) (data : List Record) : List String :=
  arrayFromSet (data.map (fun item => env.toLowerCase item.category))

/-! ## Single-field filter objects -/

/-- The five properties of the `filters` object. -/
inductive Field where
  | name
  | categories
  | date
  | price
  | minRating
  deriving DecidableEq

/-- All five fields, in the order of the object literal. -/
def allFields : List Field :=
  [Field.name, Field.categories, Field.date, Field.price, Field.minRating]

/-- The filter object equal to the default except for one field, taken from `f`. -/
def Filters.only (f : Filters) : Field → Filters
  | Field.name => { defaultFilters with name := f.name }
  | Field.categories => { defaultFilters with categories := f.categories }
  | Field.date => { defaultFilters with date := f.date }
  | Field.price => { defaultFilters with price := f.price }
  | Field.minRating => { defaultFilters with minRating := f.minRating }

/-- The filter object `f` with one field put back to its default value. -/
def Filters.unset (f : Filters) : Field → Filters
  | Field.name => { f with name := "" }
  | Field.categories => { f with categories := [] }
  | Field.date => { f with date := "" }
  | Field.price => { f with price := "Any" }
  | Field.minRating => { f with minRating := "Any" }

/-! ## A concrete environment for evaluating examples -/

/-- Decimal numerals: optional sign, digits, optional fraction; anything else
is `NaN`.  Exact on the numerals whose value is a double. -/
def decimalParseFloat (s : String) : JSNumber :=
  let cs := s.toList.dropWhile Char.isWhitespace
  let signed : Bool × List Char :=
    match cs with
    | '-' :: r => (true, r)
    | '+' :: r => (false, r)
    | _ => (false, cs)
  let ip := signed.2.takeWhile Char.isDigit
  let fp :=
    match signed.2.dropWhile Char.isDigit with
    | '.' :: r => r.takeWhile Char.isDigit
    | _ => []
  if ip.isEmpty && fp.isEmpty then JSNumber.nan
  else
    let n : Nat := (ip ++ fp).foldl (fun a c => 10 * a + (c.toNat - 48)) 0
    let v : ℚ := (n : ℚ) / (10 : ℚ) ^ fp.length
    JSNumber.fin (if signed.1 then -v else v)

/-- Lower-casing of the letters `A`-`Z`, and `decimalParseFloat`. -/
def asciiEnv : JSEnv :=
  { toLowerCase := fun s => String.mk (s.toList.map Char.toLower)
    parseFloat := decimalParseFloat }

/-- The two records of the example in the specification. -/
def laptop : Record :=
  { ref := 0, id := 1, name := "Laptop", category := "Electronics",
    date := "2023-01-01", price := 1200, rating := 9 / 2 }

/-- The second record of the example in the specification. -/
def chair : Record :=
  { ref := 1, id := 2, name := "Chair", category := "Furniture",
    date := "2023-02-01", price := 150, rating := 19 / 5 }

/-- The record `laptop` with its category written in capitals. -/
def laptopCaps : Record := { laptop with ref := 3, category := "ELECTRONICS" }

/-! ## The state of `Table` and its handlers -/

/-- The four `useState` cells of `Table` (lines 29-38). -/
structure TableState where
  data : List Record
  categories : List String
  filters : Filters
  showCategoryDropdown : Bool
  deriving DecidableEq

/-- The `name` attribute of the elements of type other than `checkbox` that
call `handleChange`: the two inputs (lines 94-105) and the two selects (lines
106-129). -/
inductive InputName where
  | name
  | date
  | price
  | minRating
  deriving DecidableEq

/-- The `e.target` of a change event delivered by the rendered page: one of
the four named inputs with its new `value`, or a category checkbox (lines
150-157, `type="checkbox"`), whose `value` is a category key. -/
inductive Target where
  | input (inputName : InputName) (value : String)
  | checkbox (value : String)
  deriving DecidableEq

/-- The object `{ ...filters, [name]: value }` (line 61). -/
def Filters.assign (filters : Filters) : InputName → String → Filters
  | InputName.name, value => { filters with name := value }
  | InputName.date, value => { filters with date := value }
  | InputName.price, value => { filters with price := value }
  | InputName.minRating, value => { filters with minRating := value }

/-- The array `newCategories` at the end of the checkbox branch (lines 52-58):
a copy of `filters.categories` from which the first occurrence of `value` was
spliced out when `value` is included, and to which `value` was pushed
otherwise. -/
def newCategories (categories : List String) (value : String) : List String :=
  if categories.contains value then categories.eraseIdx (categories.indexOf value)
  else categories ++ [value]

/-- The handler `handleChange` (lines 49-63). -/
def handleChange (s : TableState) : Target → TableState
  | Target.checkbox value =>
    { s with filters := { s.filters with categories := newCategories s.filters.categories value } }
  | Target.input inputName value => { s with filters := s.filters.assign inputName value }

/-- The handler `handleDelete` (lines 66-70): `d !== item` compares objects,
that is, records together with their identity `ref`. -/
def handleDelete (s : TableState) (item : Record) : TableState :=
  { s with data := s.data.filter (fun d => d != item) }

/-- The handler `resetFilters` (lines 76-84). -/
def resetFilters (s : TableState) : TableState :=
  { s with
    filters := { name := "", categories := [], date := "", price := "Any", minRating := "Any" } }

/-- The click handler of the category button (line 135). -/
def toggleCategoryDropdown (s : TableState) : TableState :=
  { s with showCategoryDropdown := !s.showCategoryDropdown }

/-- The `useEffect` hook (lines 41-46), which runs when `data` has changed. -/
def categoriesEffect (env : JSEnv) (s : TableState) : TableState :=
  { s with categories := uniqueCategories env s.data }

/-- The constant `filteredData` (line 73): the rows that are displayed. -/
def filteredData (env : JSEnv) (s : TableState) : List Record :=
  filterData env s.data s.filters

/-- The state after the first render of `Table` over the seed `initialData`. -/
def mount (env : JSEnv) (initialData : List Record) : TableState :=
  categoriesEffect env
    { data := initialData, categories := [], filters := defaultFilters,
      showCategoryDropdown := false }

/-- The user actions of the page. -/
inductive Event where
  | change (target : Target)
  | delete (item : Record)
  | reset
  | toggleDropdown
  deriving DecidableEq

/-- One user action: the handler, followed by the effect when `data` was set. -/
def step (env : JSEnv) (s : TableState) : Event → TableState
  | Event.change target => handleChange s target
  | Event.delete item => categoriesEffect env (handleDelete s item)
  | Event.reset => resetFilters s
  | Event.toggleDropdown => toggleCategoryDropdown s

/-- A sequence of user actions, from left to right. -/
def run (env : JSEnv) (s : TableState) (events : List Event) : TableState :=
  events.foldl (step env) s

/-! ## Arrays of records as objects in memory -/

/-- The page with its arrays of records as objects.  `heap` lists every array
of records created so far and a reference is an index into it; `initialData`
is the constant imported from `../Data/data` (line 2), `data` the array held by
the `data` state and `filteredData` the array built by the last render.  The
other cells hold values as in `TableState`. -/
structure World where
  heap : List (List Record)
  initialData : Nat
  data : Nat
  filteredData : Nat
  categories : List String
  filters : Filters
  showCategoryDropdown : Bool

/-- The elements of the array behind a reference. -/
def World.read (w : World) (ref : Nat) : List Record :=
  (w.heap[ref]?).getD []

/-- The state as the handlers read it. -/
def World.state (w : World) : TableState :=
  { data := w.read w.data, categories := w.categories, filters := w.filters,
    showCategoryDropdown := w.showCategoryDropdown }

/-- A render of `Table`: `filterData(data, filters)` (line 73) builds a new
array, since `Array.prototype.filter` returns a new array and leaves the one
it is called on as it is. -/
def World.render (env : JSEnv) (w : World) : World :=
  { w with
    heap := w.heap ++ [filterData env (w.read w.data) w.filters]
    filteredData := w.heap.length }

/-- The `useEffect` hook (lines 41-46): it reads `data` through `map`, which
also returns a new array, and sets `categories`. -/
def World.categoriesEffect (env : JSEnv) (w : World) : World :=
  { w with categories := uniqueCategories env (w.read w.data) }

/-- The first render: `useState(initialData)` (line 29) stores the seed array
itself in `data`, not a copy of it. -/
def World.mount (env : JSEnv) (seed : List Record) : World :=
  World.render env (World.categoriesEffect env (World.render env
    { heap := [seed], initialData := 0, data := 0, filteredData := 0, categories := [],
      filters := defaultFilters, showCategoryDropdown := false }))

/-- The handler `handleDelete` (lines 66-70): `data.filter` builds the new array
`newData`, and `setData` makes `data` refer to it. -/
def World.handleDelete (w : World) (item : Record) : World :=
  { w with
    heap := w.heap ++ [(w.read w.data).filter (fun d => d != item)]
    data := w.heap.length }

/-- One user action on the page: the handler, then the render it causes (for a
deletion also the effect and the render that follows it). -/
def World.step (env : JSEnv) (w : World) : Event → World
  | Event.change target =>
    World.render env { w with filters := (handleChange w.state target).filters }
  | Event.delete item =>
    World.render env (World.categoriesEffect env (World.render env (World.handleDelete w item)))
  | Event.reset => World.render env { w with filters := (resetFilters w.state).filters }
  | Event.toggleDropdown =>
    World.render env { w with showCategoryDropdown := !w.showCategoryDropdown }

/-- A sequence of user actions on the page, from left to right. -/
def World.run (env : JSEnv) (w : World) (events : List Event) : World :=
  events.foldl (World.step env) w

/-- The seed array is the first object, it holds `seed`, and `data` refers to
an existing array. -/
def World.SeedKept (seed : List Record) (w : World) : Prop :=
  w.initialData = 0 ∧ w.heap[0]? = some seed ∧ w.data < w.heap.length

/-! ## Basic facts -/

theorem keeps_default (env : JSEnv) (item : Record) : keeps env defaultFilters item = true := by
  simp [keeps, defaultFilters]

theorem mem_filterData {env : JSEnv} {R : List Record} {f : Filters} {r : Record} :
    r ∈ filterData env R f ↔ r ∈ R ∧ keeps env f r = true := by
  simp [filterData]

theorem keeps_date (env : JSEnv) (q : String) (r : Record) :
    keeps env { defaultFilters with date := q } r = (q == "" || r.date == formatDate q) := by
  simp [keeps, defaultFilters]

theorem keeps_price (env : JSEnv) (p : String) (r : Record) :
    keeps env { defaultFilters with price := p } r =
      (p == "Any" || (if p == "High" then decide (500 ≤ r.price) else decide (r.price < 500))) := by
  simp [keeps, defaultFilters]

theorem keeps_categories (env : JSEnv) (C : List String) (r : Record) :
    keeps env { defaultFilters with categories := C } r =
      (C.length == 0 || C.contains (env.toLowerCase r.category)) := by
  simp [keeps, defaultFilters]

/-! ### `split` -/

theorem split_ne_nil (sep : Char) (cs : List Char) : split sep cs ≠ [] := by
  cases cs with
  | nil => simp [split]
  | cons c cs =>
    unfold split
    split_ifs
    · simp
    · cases split sep cs <;> simp

/-- A string without the separator is a single piece. -/
theorem split_of_not_mem (sep : Char) (p : List Char) (h : sep ∉ p) : split sep p = [p] := by
  induction p with
  | nil => simp [split]
  | cons c cs ih =>
    have hc : c ≠ sep := fun e => h (by simp [e])
    have hcs : sep ∉ cs := fun e => h (by simp [e])
    simp [split, hc, ih hcs]

/-- Splitting after a first piece that has no separator. -/
theorem split_append_sep (sep : Char) (p rest : List Char) (h : sep ∉ p) :
    split sep (p ++ sep :: rest) = p :: split sep rest := by
  induction p with
  | nil => simp [split]
  | cons c cs ih =>
    have hc : c ≠ sep := fun e => h (by simp [e])
    have hcs : sep ∉ cs := fun e => h (by simp [e])
    simp [split, hc, ih hcs]

/-- No piece of a split contains the separator. -/
theorem not_mem_of_mem_split (sep : Char) (cs p : List Char) (hp : p ∈ split sep cs) :
    sep ∉ p := by
  induction cs generalizing p with
  | nil =>
    simp [split] at hp
    simp [hp]
  | cons c cs ih =>
    unfold split at hp
    split_ifs at hp with hc
    · rcases List.mem_cons.1 hp with rfl | hp
      · simp
      · exact ih p hp
    · cases hs : split sep cs with
      | nil => exact absurd hs (split_ne_nil sep cs)
      | cons q qs =>
        rw [hs] at hp ih
        rcases List.mem_cons.1 hp with rfl | hp
        · have := ih q (by simp)
          simp only [List.mem_cons, not_or]
          exact ⟨fun e => hc e.symm, this⟩
        · exact ih p (by simp [hp])

/-- Joining the pieces with the separator gives the string back. -/
theorem intercalate_split (sep : Char) (cs : List Char) :
    List.intercalate [sep] (split sep cs) = cs := by
  induction cs with
  | nil => simp [split, List.intercalate]
  | cons c cs ih =>
    unfold split
    split_ifs with hc
    · cases hs : split sep cs with
      | nil => exact absurd hs (split_ne_nil sep cs)
      | cons q qs =>
        rw [hs] at ih
        simp only [List.intercalate] at ih ⊢
        simp [hc, ih]
    · cases hs : split sep cs with
      | nil => exact absurd hs (split_ne_nil sep cs)
      | cons q qs =>
        rw [hs] at ih
        cases qs with
        | nil =>
          simp [List.intercalate] at ih ⊢
          exact ih
        | cons q2 qs =>
          simp [List.intercalate] at ih ⊢
          exact ih

/-- On a string of exactly three pieces, `formatDate` lists them in reverse. -/
theorem formatDate_of_split (s : String) (a b c : List Char)
    (h : split '-' s.data = [a, b, c]) :
    formatDate s = String.mk (c ++ '-' :: (b ++ '-' :: a)) := by
  simp [formatDate, h, interpolate]

/-- On a string of exactly three pieces, `formatDate` undoes itself. -/
theorem formatDate_formatDate (s : String) (h : (split '-' s.toList).length = 3) :
    formatDate (formatDate s) = s := by
  obtain ⟨a, b, c, habc⟩ : ∃ a b c, split '-' s.data = [a, b, c] := by
    match hs : split '-' s.data, h with
    | [a, b, c], _ => exact ⟨a, b, c, rfl⟩
  have ha : '-' ∉ a := not_mem_of_mem_split '-' s.data a (by simp [habc])
  have hb : '-' ∉ b := not_mem_of_mem_split '-' s.data b (by simp [habc])
  have hc : '-' ∉ c := not_mem_of_mem_split '-' s.data c (by simp [habc])
  have hjoin : a ++ '-' :: (b ++ '-' :: c) = s.data := by
    have := intercalate_split '-' s.data
    rw [habc] at this
    simpa [List.intercalate] using this
  have h2 : split '-' (c ++ '-' :: (b ++ '-' :: a)) = [c, b, a] := by
    rw [split_append_sep _ _ _ hc, split_append_sep _ _ _ hb, split_of_not_mem _ _ ha]
  rw [formatDate_of_split s a b c habc, formatDate_of_split _ c b a h2, hjoin]

/-! ## Claims -/

/-- C1 (identity filter): with the default filter object, `filterData` returns
its input list unchanged: same elements, same order, same length. -/
theorem filterData_default (env : JSEnv) (R : List Record) :
    filterData env R defaultFilters = R := by
  unfold filterData
  rw [List.filter_eq_self]
  intro a _
  exact keeps_default env a

/-- Three pieces without a dash, joined by dashes, split into these pieces. -/
theorem split_three (a b c : List Char) (ha : '-' ∉ a) (hb : '-' ∉ b) (hc : '-' ∉ c) :
    split '-' (a ++ '-' :: (b ++ '-' :: c)) = [a, b, c] := by
  rw [split_append_sep _ _ _ ha, split_append_sep _ _ _ hb, split_of_not_mem _ _ hc]

/-- Two dash-joined triples of pieces without a dash are equal only when their
pieces are. -/
theorem join_three_inj (a b c a' b' c' : List Char)
    (ha : '-' ∉ a) (hb : '-' ∉ b) (hc : '-' ∉ c)
    (ha' : '-' ∉ a') (hb' : '-' ∉ b') (hc' : '-' ∉ c')
    (h : a ++ '-' :: (b ++ '-' :: c) = a' ++ '-' :: (b' ++ '-' :: c')) :
    a = a' ∧ b = b' ∧ c = c' := by
  have := congrArg (split '-') h
  rw [split_three a b c ha hb hc, split_three a' b' c' ha' hb' hc'] at this
  simpa using this

/-- A piece made of digits has no dash. -/
theorem not_dash_of_digits (y : List Char) (hy : ∀ c ∈ y, c.isDigit = true) : '-' ∉ y :=
  fun h => absurd (hy '-' h) (by decide)

/-- The text printed by `formatDate` for fewer than three pieces starts with
`undefined-`. -/
theorem formatDate_of_short (q : String) (hlt : (split '-' q.toList).length < 3) :
    "undefined-".toList <+: (formatDate q).toList := by
  have h2 : (split '-' q.toList)[2]? = none := by
    rw [List.getElem?_eq_none_iff]
    omega
  unfold formatDate
  simp only [h2, interpolate]
  exact ⟨_, rfl⟩

/-- A text of digits and dashes is never what `formatDate` prints for fewer
than three pieces. -/
theorem ne_formatDate_of_short (s q : String)
    (hs : ∀ c ∈ s.toList, c.isDigit = true ∨ c = '-')
    (hlt : (split '-' q.toList).length < 3) : s ≠ formatDate q := by
  intro h
  obtain ⟨t, ht⟩ := formatDate_of_short q hlt
  have hu : 'u' ∈ s.toList := by
    rw [h, ← ht]
    exact List.mem_append_left t (by decide)
  rcases hs 'u' hu with h1 | h1
  · exact absurd h1 (by decide)
  · exact absurd h1 (by decide)

/-- C2 (date predicate): for a record whose date is `y-m-d` with three pieces
of digits and a non-empty date filter `q` of at most three `-`-separated
pieces, with the other fields unset, the record is returned from a list `R`
iff it is in `R` and `q` is the record date with its three pieces in reverse
order, `d-m-y`; in particular `r` is in `filterData [r]` iff `q` is `d-m-y`. -/
theorem date_predicate (env : JSEnv) (R : List Record) (r : Record) (q : String)
    (y m d : List Char)
    (hy : ∀ c ∈ y, c.isDigit = true) (hm : ∀ c ∈ m, c.isDigit = true)
    (hd : ∀ c ∈ d, c.isDigit = true)
    (hr : r.date.toList = y ++ '-' :: (m ++ '-' :: d))
    (hq : q ≠ "") (hq3 : (split '-' q.toList).length ≤ 3) :
    (r ∈ filterData env R { defaultFilters with date := q } ↔
      r ∈ R ∧ q.toList = d ++ '-' :: (m ++ '-' :: y)) ∧
    (r ∈ filterData env [r] { defaultFilters with date := q } ↔
      q.toList = d ++ '-' :: (m ++ '-' :: y)) := by
  have hy' := not_dash_of_digits y hy
  have hm' := not_dash_of_digits m hm
  have hd' := not_dash_of_digits d hd
  have key : r.date = formatDate q ↔ q.toList = d ++ '-' :: (m ++ '-' :: y) := by
    rcases Nat.lt_or_eq_of_le hq3 with hlt | h3
    · -- fewer than three pieces: neither side holds
      constructor
      · intro h
        refine absurd h (ne_formatDate_of_short r.date q ?_ hlt)
        intro c hc
        rw [hr] at hc
        simp only [List.mem_append, List.mem_cons] at hc
        rcases hc with h1 | h1 | h1 | h1 | h1
        · exact Or.inl (hy c h1)
        · exact Or.inr h1
        · exact Or.inl (hm c h1)
        · exact Or.inr h1
        · exact Or.inl (hd c h1)
      · intro h
        rw [h, split_three d m y hd' hm' hy'] at hlt
        simp at hlt
    · -- exactly three pieces `a`, `b`, `c`: `formatDate q` is `c-b-a`
      obtain ⟨a, b, c, habc⟩ : ∃ a b c, split '-' q.data = [a, b, c] := by
        match hs : split '-' q.data, h3 with
        | [a, b, c], _ => exact ⟨a, b, c, rfl⟩
      have ha : '-' ∉ a := not_mem_of_mem_split '-' q.data a (by simp [habc])
      have hb : '-' ∉ b := not_mem_of_mem_split '-' q.data b (by simp [habc])
      have hc : '-' ∉ c := not_mem_of_mem_split '-' q.data c (by simp [habc])
      have hjoin : a ++ '-' :: (b ++ '-' :: c) = q.data := by
        have := intercalate_split '-' q.data
        rw [habc] at this
        simpa [List.intercalate] using this
      rw [formatDate_of_split q a b c habc]
      constructor
      · intro h
        have h' : y ++ '-' :: (m ++ '-' :: d) = c ++ '-' :: (b ++ '-' :: a) := by
          rw [← hr, h]
          rfl
        obtain ⟨e1, e2, e3⟩ := join_three_inj _ _ _ _ _ _ hy' hm' hd' hc hb ha h'
        show q.data = _
        rw [← hjoin, e1, e2, e3]
      · intro h
        have h' : a ++ '-' :: (b ++ '-' :: c) = d ++ '-' :: (m ++ '-' :: y) := by
          rw [hjoin]
          exact h
        obtain ⟨e1, e2, e3⟩ := join_three_inj _ _ _ _ _ _ ha hb hc hd' hm' hy' h'
        apply String.ext
        show r.date.toList = _
        rw [hr, e1, e2, e3]
  have hk : keeps env { defaultFilters with date := q } r = true ↔ r.date = formatDate q := by
    rw [keeps_date]
    simp [hq]
  constructor
  · rw [mem_filterData, hk, key]
  · rw [mem_filterData, hk, key]
    simp

theorem date_predicate_witness :
    ((∀ c ∈ "2023".toList, c.isDigit = true) ∧ (∀ c ∈ "01".toList, c.isDigit = true) ∧
      laptop.date.toList = "2023".toList ++ '-' :: ("01".toList ++ '-' :: "01".toList) ∧
      "01-01-2023" ≠ "" ∧ (split '-' "01-01-2023".toList).length ≤ 3) ∧
    (laptop ∈ filterData asciiEnv [laptop, chair] { defaultFilters with date := "01-01-2023" } ↔
      laptop ∈ [laptop, chair] ∧
        "01-01-2023".toList = "01".toList ++ '-' :: ("01".toList ++ '-' :: "2023".toList)) ∧
    (laptop ∈ filterData asciiEnv [laptop, chair] { defaultFilters with date := "2023-01" } ↔
      laptop ∈ [laptop, chair] ∧
        "2023-01".toList = "01".toList ++ '-' :: ("01".toList ++ '-' :: "2023".toList)) :=
  ⟨⟨by decide, by decide, by decide, by decide, by decide⟩,
    (date_predicate asciiEnv [laptop, chair] laptop "01-01-2023" "2023".toList "01".toList
      "01".toList (by decide) (by decide) (by decide) (by decide) (by decide) (by decide)).1,
    (date_predicate asciiEnv [laptop, chair] laptop "2023-01" "2023".toList "01".toList
      "01".toList (by decide) (by decide) (by decide) (by decide) (by decide) (by decide)).1⟩

/-- C3 (date predicate end-to-end): a record dated `2023-01-01` is returned
under the date filter `01-01-2023` and is not returned under `02-01-2023`
(other fields unset). -/
theorem date_end_to_end (env : JSEnv) (R : List Record) (r : Record)
    (hr : r ∈ R) (hd : r.date = "2023-01-01") :
    r ∈ filterData env R { defaultFilters with date := "01-01-2023" } ∧
    r ∉ filterData env R { defaultFilters with date := "02-01-2023" } := by
  have e1 : formatDate "01-01-2023" = "2023-01-01" := by decide
  have e2 : formatDate "02-01-2023" = "2023-01-02" := by decide
  constructor
  · rw [mem_filterData, keeps_date, e1, hd]
    exact ⟨hr, by decide⟩
  · rw [mem_filterData, keeps_date, e2, hd]
    intro h
    exact absurd h.2 (by decide)

theorem date_end_to_end_witness :
    (laptop ∈ [laptop, chair] ∧ laptop.date = "2023-01-01") ∧
    laptop ∈ filterData asciiEnv [laptop, chair] { defaultFilters with date := "01-01-2023" } ∧
    laptop ∉ filterData asciiEnv [laptop, chair] { defaultFilters with date := "02-01-2023" } :=
  ⟨⟨by simp, rfl⟩, date_end_to_end asciiEnv [laptop, chair] laptop (by simp) rfl⟩

/-- C4, as stated, fails: under the price value `Medium`, which is none of
`Any`, `High`, `Low`, the record priced 1200 is dropped, while `Any` keeps it. -/
theorem unknown_price_is_not_any :
    ("Medium" ≠ "Any" ∧ "Medium" ≠ "High" ∧ "Medium" ≠ "Low") ∧
    filterData asciiEnv [laptop] { defaultFilters with price := "Medium" } = [] ∧
    filterData asciiEnv [laptop] { defaultFilters with price := "Any" } = [laptop] := by
  refine ⟨by decide, ?_, ?_⟩
  · simp [filterData, keeps_price, laptop]
    norm_num
  · simp [filterData, keeps_price]

/-- C4, amended: a price value that is none of `Any`, `High`, `Low` is treated
like `Low`: the result is that of the price filter `Low`, the records with
`price < 500`. -/
theorem unknown_price_is_low (env : JSEnv) (R : List Record) (p : String)
    (hAny : p ≠ "Any") (hHigh : p ≠ "High") (_hLow : p ≠ "Low") :
    filterData env R { defaultFilters with price := p } =
      filterData env R { defaultFilters with price := "Low" } ∧
    filterData env R { defaultFilters with price := p } =
      R.filter (fun r => decide (r.price < 500)) := by
  have h1 : ∀ r, keeps env { defaultFilters with price := p } r = decide (r.price < 500) := by
    intro r
    rw [keeps_price]
    simp [hAny, hHigh]
  have h2 : ∀ r, keeps env { defaultFilters with price := "Low" } r = decide (r.price < 500) := by
    intro r
    rw [keeps_price]
    simp
  unfold filterData
  rw [funext h1, funext h2]
  exact ⟨rfl, rfl⟩

theorem unknown_price_is_low_witness :
    ("Medium" ≠ "Any" ∧ "Medium" ≠ "High" ∧ "Medium" ≠ "Low") ∧
    (filterData asciiEnv [laptop, chair] { defaultFilters with price := "Medium" } =
      filterData asciiEnv [laptop, chair] { defaultFilters with price := "Low" } ∧
    filterData asciiEnv [laptop, chair] { defaultFilters with price := "Medium" } =
      [laptop, chair].filter (fun r => decide (r.price < 500))) :=
  ⟨by decide,
    unknown_price_is_low asciiEnv [laptop, chair] "Medium" (by decide) (by decide) (by decide)⟩

/-- C5 (malformed date input): for a non-empty date filter with fewer than
three `-`-separated pieces and a record list whose dates are written with
digits and dashes, `filterData` (a total function, it cannot fail) returns no
record: the result is empty. -/
theorem malformed_date (env : JSEnv) (R : List Record) (q : String)
    (hq : q ≠ "") (hlt : (split '-' q.toList).length < 3)
    (hR : ∀ r ∈ R, ∀ c ∈ r.date.toList, c.isDigit = true ∨ c = '-') :
    filterData env R { defaultFilters with date := q } = [] ∧
    ∀ r ∈ R, keeps env { defaultFilters with date := q } r = false := by
  have hk : ∀ r ∈ R, keeps env { defaultFilters with date := q } r = false := by
    intro r hr
    rw [keeps_date]
    have := ne_formatDate_of_short r.date q (hR r hr) hlt
    simp [hq, this]
  refine ⟨?_, hk⟩
  rw [List.eq_nil_iff_forall_not_mem]
  intro r hr
  have h1 := mem_filterData.1 hr
  rw [hk r h1.1] at h1
  exact absurd h1.2 (by decide)

theorem malformed_date_witness :
    ("2023-01" ≠ "" ∧ (split '-' "2023-01".toList).length < 3 ∧
      ∀ r ∈ [laptop, chair], ∀ c ∈ r.date.toList, c.isDigit = true ∨ c = '-') ∧
    filterData asciiEnv [laptop, chair] { defaultFilters with date := "2023-01" } = [] :=
  ⟨⟨by decide, by decide, by decide⟩,
    (malformed_date asciiEnv [laptop, chair] "2023-01" (by decide) (by decide) (by decide)).1⟩

/-- C6 (price buckets): with the other fields unset, `High` returns exactly the
records with `price >= 500` and `Low` exactly those with `price < 500`; a
record priced exactly 500 is returned under `High` and dropped under `Low`;
every record is returned under exactly one of the two. -/
theorem price_buckets (env : JSEnv) (R : List Record) (r : Record) :
    (r ∈ filterData env R { defaultFilters with price := "High" } ↔ r ∈ R ∧ 500 ≤ r.price) ∧
    (r ∈ filterData env R { defaultFilters with price := "Low" } ↔ r ∈ R ∧ r.price < 500) ∧
    (filterData env [{ r with price := 500 }] { defaultFilters with price := "High" } =
        [{ r with price := 500 }] ∧
      filterData env [{ r with price := 500 }] { defaultFilters with price := "Low" } = []) ∧
    ((r ∈ filterData env [r] { defaultFilters with price := "High" } ∧
        r ∉ filterData env [r] { defaultFilters with price := "Low" }) ∨
      (r ∉ filterData env [r] { defaultFilters with price := "High" } ∧
        r ∈ filterData env [r] { defaultFilters with price := "Low" })) := by
  have hH : ∀ x, keeps env { defaultFilters with price := "High" } x = decide (500 ≤ x.price) := by
    intro x
    rw [keeps_price]
    simp
  have hL : ∀ x, keeps env { defaultFilters with price := "Low" } x = decide (x.price < 500) := by
    intro x
    rw [keeps_price]
    simp
  refine ⟨?_, ?_, ⟨?_, ?_⟩, ?_⟩
  · rw [mem_filterData, hH]
    simp
  · rw [mem_filterData, hL]
    simp
  · simp [filterData, hH]
  · simp [filterData, hL]
  · simp only [mem_filterData, hH, hL, List.mem_singleton, true_and, decide_eq_true_eq, not_lt,
      not_le]
    rcases le_or_lt 500 r.price with h | h
    · exact Or.inl ⟨h, h⟩
    · exact Or.inr ⟨h, h⟩

/-- The predicate of `filterData` is the conjunction of the five single-field
predicates. -/
theorem keeps_eq_all_only (env : JSEnv) (f : Filters) (r : Record) :
    keeps env f r = allFields.all (fun fld => keeps env (f.only fld) r) := by
  simp [keeps, allFields, Filters.only, defaultFilters, Bool.and_assoc]

/-- Filtering successively by a list of filter objects is one filter by the
conjunction of their predicates. -/
theorem foldl_filterData (env : JSEnv) (g : Field → Filters) (l : List Field)
    (R : List Record) :
    l.foldl (fun acc fld => filterData env acc (g fld)) R =
      R.filter (fun r => l.all (fun fld => keeps env (g fld) r)) := by
  induction l generalizing R with
  | nil => simp
  | cons fld l ih =>
    rw [List.foldl_cons, ih]
    unfold filterData
    rw [List.filter_filter]
    apply List.filter_congr
    intro r _
    simp [Bool.and_comm]

/-- The conjunction over a list of fields does not depend on their order. -/
theorem all_of_perm {l₁ l₂ : List Field} (h : l₁.Perm l₂) (p : Field → Bool) :
    l₁.all p = l₂.all p := by
  rw [Bool.eq_iff_iff, List.all_eq_true, List.all_eq_true]
  exact ⟨fun H x hx => H x (h.mem_iff.2 hx), fun H x hx => H x (h.mem_iff.1 hx)⟩

/-- C7 (predicates combine by AND): filtering `R` successively by the five
single-field filter objects of `f`, taken in any order `l`, gives
`filterData R f`; and a record is in `filterData R f` iff it is in
`filterData R (f.only fld)` for each of the five fields. -/
theorem filterData_conjunction (env : JSEnv) (R : List Record) (f : Filters)
    (l : List Field) (hl : l.Perm allFields) :
    l.foldl (fun acc fld => filterData env acc (f.only fld)) R = filterData env R f ∧
    ∀ r, r ∈ filterData env R f ↔ ∀ fld : Field, r ∈ filterData env R (f.only fld) := by
  constructor
  · rw [foldl_filterData]
    unfold filterData
    apply List.filter_congr
    intro r _
    rw [keeps_eq_all_only, all_of_perm hl]
  · intro r
    simp only [mem_filterData, keeps_eq_all_only env f r, List.all_eq_true]
    constructor
    · rintro ⟨hr, h⟩ fld
      refine ⟨hr, h fld ?_⟩
      cases fld <;> simp [allFields]
    · intro h
      exact ⟨(h Field.name).1, fun fld _ => (h fld).2⟩

theorem filterData_conjunction_witness :
    [Field.minRating, Field.date, Field.price, Field.name, Field.categories].Perm allFields ∧
    ([Field.minRating, Field.date, Field.price, Field.name, Field.categories].foldl
        (fun acc fld =>
          filterData asciiEnv acc
            (Filters.only ⟨"lap", ["electronics"], "", "High", "4"⟩ fld)) [laptop, chair] =
      filterData asciiEnv [laptop, chair] ⟨"lap", ["electronics"], "", "High", "4"⟩ ∧
    ∀ r, r ∈ filterData asciiEnv [laptop, chair] ⟨"lap", ["electronics"], "", "High", "4"⟩ ↔
      ∀ fld : Field, r ∈ filterData asciiEnv [laptop, chair]
        (Filters.only ⟨"lap", ["electronics"], "", "High", "4"⟩ fld)) :=
  ⟨by decide,
    filterData_conjunction asciiEnv [laptop, chair] ⟨"lap", ["electronics"], "", "High", "4"⟩
      [Field.minRating, Field.date, Field.price, Field.name, Field.categories] (by decide)⟩

/-- Putting a field of the filter object back to its default keeps every record
that passed before. -/
theorem keeps_unset (env : JSEnv) (f : Filters) (fld : Field) (r : Record)
    (h : keeps env f r = true) : keeps env (f.unset fld) r = true := by
  cases fld <;>
    simp only [keeps, Filters.unset, Bool.and_eq_true, Bool.or_eq_true, beq_self_eq_true,
      true_or, and_true, true_and, List.length_nil] at h ⊢ <;>
    tauto

/-- C8 (monotonicity and stability): for a filter object `f` and `f.unset fld`
(`f` with any one field put back to its unset value), `filterData R f` is a
sublist, in the same order, of `filterData R (f.unset fld)` and of `R`; so it
is never longer than `filterData R (f.unset fld)`. -/
theorem filterData_monotone (env : JSEnv) (R : List Record) (f : Filters) (fld : Field) :
    (filterData env R f).Sublist (filterData env R (f.unset fld)) ∧
    (filterData env R (f.unset fld)).Sublist R ∧
    (filterData env R f).Sublist R ∧
    (filterData env R f).length ≤ (filterData env R (f.unset fld)).length := by
  have h1 : (filterData env R f).Sublist (filterData env R (f.unset fld)) :=
    List.monotone_filter_right R (fun r hr => keeps_unset env f fld r hr)
  exact ⟨h1, List.filter_sublist R, List.filter_sublist R, h1.length_le⟩

/-! ### `arrayFromSet` -/

theorem arrayFromSet_nil : arrayFromSet [] = [] := rfl

/-- One more element: it is appended iff it is not yet in the set. -/
theorem arrayFromSet_concat (xs : List String) (x : String) :
    arrayFromSet (xs ++ [x]) =
      if x ∈ arrayFromSet xs then arrayFromSet xs else arrayFromSet xs ++ [x] := by
  simp [arrayFromSet, List.foldl_append]

theorem mem_arrayFromSet (xs : List String) (k : String) : k ∈ arrayFromSet xs ↔ k ∈ xs := by
  induction xs using List.reverseRecOn generalizing k with
  | nil => simp [arrayFromSet_nil]
  | append_singleton xs x ih =>
    rw [arrayFromSet_concat]
    split_ifs with hx
    · rw [ih, List.mem_append, List.mem_singleton]
      constructor
      · exact Or.inl
      · rintro (h | rfl)
        · exact h
        · exact (ih k).1 hx
    · simp [ih]

theorem nodup_arrayFromSet (xs : List String) : (arrayFromSet xs).Nodup := by
  induction xs using List.reverseRecOn with
  | nil => simp [arrayFromSet_nil]
  | append_singleton xs x ih =>
    rw [arrayFromSet_concat]
    split_ifs with hx
    · exact ih
    · rw [List.nodup_append]
      refine ⟨ih, List.nodup_singleton x, ?_⟩
      intro a ha hb
      rw [List.mem_singleton.1 hb] at ha
      exact hx ha

/-- Two keys of the set are listed in the order of their first occurrences. -/
theorem indexOf_arrayFromSet (xs : List String) (k₁ k₂ : String) :
    List.indexOf k₁ (arrayFromSet xs) < List.indexOf k₂ (arrayFromSet xs) ↔
      List.indexOf k₁ xs < List.indexOf k₂ xs := by
  induction xs using List.reverseRecOn with
  | nil => simp [arrayFromSet_nil]
  | append_singleton xs x ih =>
    have key : ∀ (l : List String) (k : String), x ∉ l →
        List.indexOf k (l ++ [x]) =
          if k ∈ l then List.indexOf k l else if k = x then l.length else l.length + 1 := by
      intro l k hxl
      by_cases hk : k ∈ l
      · rw [if_pos hk, List.indexOf_append_of_mem hk]
      · rw [if_neg hk, List.indexOf_append_of_not_mem hk]
        by_cases hkx : k = x
        · subst hkx
          simp
        · rw [if_neg hkx, List.indexOf_cons_ne _ (Ne.symm hkx)]
          simp
    have lt : ∀ (l : List String) (k : String), k ∈ l → List.indexOf k l < l.length :=
      fun l k h => List.indexOf_lt_length.2 h
    have nm : ∀ (l : List String) (k : String), k ∉ l → List.indexOf k l = l.length :=
      fun l k h => List.indexOf_eq_length.2 h
    rw [arrayFromSet_concat]
    have hmem := mem_arrayFromSet xs
    split_ifs with hx
    · -- `x` already occurs in `xs`: the set is unchanged
      have hx' : x ∈ xs := (hmem x).1 hx
      rw [ih]
      have idx : ∀ k, List.indexOf k (xs ++ [x]) =
          if k ∈ xs then List.indexOf k xs else xs.length + 1 := by
        intro k
        by_cases hk : k ∈ xs
        · rw [if_pos hk, List.indexOf_append_of_mem hk]
        · rw [if_neg hk, List.indexOf_append_of_not_mem hk]
          have hkx : x ≠ k := fun e => hk (e ▸ hx')
          rw [List.indexOf_cons_ne _ hkx]
          simp
      rw [idx k₁, idx k₂]
      by_cases h1 : k₁ ∈ xs <;> by_cases h2 : k₂ ∈ xs
      · simp [h1, h2]
      · have := lt xs k₁ h1
        simp only [h1, h2, if_true, if_false, nm xs k₂ h2]
        omega
      · have := lt xs k₂ h2
        simp only [h1, h2, if_true, if_false, nm xs k₁ h1]
        omega
      · simp [h1, h2, nm xs k₁ h1, nm xs k₂ h2]
    · -- `x` is new: it is appended to both lists
      have hx' : x ∉ xs := fun h => hx ((hmem x).2 h)
      rw [key _ k₁ hx, key _ k₂ hx, key _ k₁ hx', key _ k₂ hx']
      simp only [hmem]
      by_cases h1 : k₁ ∈ xs <;> by_cases h2 : k₂ ∈ xs
      · simp [h1, h2, ih]
      · have a1 := lt xs k₁ h1
        have a2 := lt _ k₁ ((hmem k₁).2 h1)
        simp only [h1, h2, if_true, if_false]
        split_ifs <;> constructor <;> intro <;> omega
      · have a1 := lt xs k₂ h2
        have a2 := lt _ k₂ ((hmem k₂).2 h2)
        simp only [h1, h2, if_true, if_false]
        split_ifs <;> constructor <;> intro <;> omega
      · simp only [h1, h2, if_false]
        split_ifs <;> constructor <;> intro <;> omega

/-- C9 (category index): the category list computed from `R` has no duplicates;
a key is in it iff it is the lower-cased category of some record of `R`; two
keys are listed in the order of their first occurrences among the lower-cased
categories of `R`; and two records whose categories have the same lower-cased
form (they differ only in case) give a single key. -/
theorem uniqueCategories_correct (env : JSEnv) (R : List Record) :
    (uniqueCategories env R).Nodup ∧
    (∀ k, k ∈ uniqueCategories env R ↔ ∃ r ∈ R, env.toLowerCase r.category = k) ∧
    (∀ k₁ k₂,
      List.indexOf k₁ (uniqueCategories env R) < List.indexOf k₂ (uniqueCategories env R) ↔
      List.indexOf k₁ (R.map (fun r => env.toLowerCase r.category)) <
        List.indexOf k₂ (R.map (fun r => env.toLowerCase r.category))) ∧
    (∀ r₁ r₂ : Record, env.toLowerCase r₁.category = env.toLowerCase r₂.category →
      uniqueCategories env [r₁, r₂] = [env.toLowerCase r₁.category]) := by
  refine ⟨nodup_arrayFromSet _, fun k => ?_, fun k₁ k₂ => indexOf_arrayFromSet _ k₁ k₂, ?_⟩
  · unfold uniqueCategories
    rw [mem_arrayFromSet, List.mem_map]
  · intro r₁ r₂ hcase
    simp [uniqueCategories, arrayFromSet, hcase]

theorem uniqueCategories_correct_witness :
    asciiEnv.toLowerCase laptop.category = asciiEnv.toLowerCase laptopCaps.category ∧
    uniqueCategories asciiEnv [laptop, laptopCaps] = ["electronics"] ∧
    uniqueCategories asciiEnv [laptop, chair, laptopCaps] = ["electronics", "furniture"] ∧
    (uniqueCategories asciiEnv [laptop, chair, laptopCaps]).Nodup :=
  ⟨by decide,
    ((uniqueCategories_correct asciiEnv [laptop, chair, laptopCaps]).2.2.2 laptop laptopCaps
      (by decide)).trans (by decide),
    by decide,
    (uniqueCategories_correct asciiEnv [laptop, chair, laptopCaps]).1⟩

/-- C10 (category predicate): with a non-empty list `C` of selected keys and
the other fields unset, `filterData` returns exactly the records of `R` whose
lower-cased category is in `C`; for every key `k` of the category list of `R`,
selecting `[k]` gives a non-empty result, exactly the records whose
lower-cased category is `k`. -/
theorem category_predicate (env : JSEnv) (R : List Record) (C : List String) (hC : C ≠ []) :
    filterData env R { defaultFilters with categories := C } =
      R.filter (fun r => decide (env.toLowerCase r.category ∈ C)) ∧
    ∀ k ∈ uniqueCategories env R,
      filterData env R { defaultFilters with categories := [k] } ≠ [] ∧
      filterData env R { defaultFilters with categories := [k] } =
        R.filter (fun r => decide (env.toLowerCase r.category = k)) := by
  have hk : ∀ (D : List String), D ≠ [] → ∀ r,
      keeps env { defaultFilters with categories := D } r =
        decide (env.toLowerCase r.category ∈ D) := by
    intro D hD r
    rw [keeps_categories]
    cases D with
    | nil => exact absurd rfl hD
    | cons d D => simp
  refine ⟨?_, fun k hkmem => ⟨?_, ?_⟩⟩
  · unfold filterData
    rw [funext (hk C hC)]
  · obtain ⟨r, hr, hrk⟩ : ∃ r ∈ R, env.toLowerCase r.category = k := by
      unfold uniqueCategories at hkmem
      rw [mem_arrayFromSet, List.mem_map] at hkmem
      exact hkmem
    have : r ∈ filterData env R { defaultFilters with categories := [k] } := by
      rw [mem_filterData, hk [k] (by simp)]
      exact ⟨hr, by simp [hrk]⟩
    exact List.ne_nil_of_mem this
  · unfold filterData
    rw [funext (hk [k] (by simp))]
    simp

theorem category_predicate_witness :
    ["electronics"] ≠ [] ∧
    (filterData asciiEnv [laptop, chair] { defaultFilters with categories := ["electronics"] } =
      [laptop, chair].filter (fun r => decide (asciiEnv.toLowerCase r.category ∈ ["electronics"])) ∧
    ∀ k ∈ uniqueCategories asciiEnv [laptop, chair],
      filterData asciiEnv [laptop, chair] { defaultFilters with categories := [k] } ≠ [] ∧
      filterData asciiEnv [laptop, chair] { defaultFilters with categories := [k] } =
        [laptop, chair].filter (fun r => decide (asciiEnv.toLowerCase r.category = k))) :=
  ⟨by decide, category_predicate asciiEnv [laptop, chair] ["electronics"] (by decide)⟩

/-! ### The name and rating predicates -/

/-- The call `s.includes(t)` is true iff `t` occurs in `s` between some text `a`
before it and some text `b` after it. -/
theorem includes_iff (s t : String) :
    includes s t = true ↔ ∃ a b : List Char, s.toList = a ++ t.toList ++ b := by
  unfold includes
  rw [List.any_eq_true]
  constructor
  · rintro ⟨u, hu, hp⟩
    obtain ⟨a, ha⟩ := (List.mem_tails u s.toList).1 hu
    obtain ⟨b, hb⟩ := List.isPrefixOf_iff_prefix.1 hp
    exact ⟨a, b, by rw [← ha, ← hb, List.append_assoc]⟩
  · rintro ⟨a, b, h⟩
    refine ⟨t.toList ++ b, (List.mem_tails _ _).2 ⟨a, ?_⟩, List.isPrefixOf_iff_prefix.2 ⟨b, rfl⟩⟩
    rw [h, List.append_assoc]

theorem keeps_name (env : JSEnv) (q : String) (r : Record) :
    keeps env { defaultFilters with name := q } r =
      (q == "" || includes (env.toLowerCase r.name) (env.toLowerCase q)) := by
  simp [keeps, defaultFilters]

theorem keeps_minRating (env : JSEnv) (t : String) (r : Record) :
    keeps env { defaultFilters with minRating := t } r =
      (t == "Any" || geNumber r.rating (env.parseFloat t)) := by
  simp [keeps, defaultFilters]

/-- C11 (name predicate): with a non-empty name query `q` and the other fields
unset, `filterData` returns, from every record list `R` and in the order of
`R`, exactly the records in whose lower-cased name the lower-cased query
occurs as a contiguous substring; so two non-empty queries with the same
lower-cased form give the same result on every list, and two records of `R`
whose names have the same lower-cased form are both returned or both
dropped. -/
theorem name_predicate (env : JSEnv) (R : List Record) (q : String) (hq : q ≠ "") :
    filterData env R { defaultFilters with name := q } =
      R.filter (fun r =>
        decide ((env.toLowerCase q).toList <:+: (env.toLowerCase r.name).toList)) ∧
    (∀ r, r ∈ filterData env R { defaultFilters with name := q } ↔
      r ∈ R ∧ ∃ a b : List Char,
        (env.toLowerCase r.name).toList = a ++ (env.toLowerCase q).toList ++ b) ∧
    (∀ q' : String, q' ≠ "" → env.toLowerCase q' = env.toLowerCase q →
      filterData env R { defaultFilters with name := q' } =
        filterData env R { defaultFilters with name := q }) ∧
    (∀ r r' : Record, r ∈ R → r' ∈ R → env.toLowerCase r'.name = env.toLowerCase r.name →
      (r' ∈ filterData env R { defaultFilters with name := q } ↔
        r ∈ filterData env R { defaultFilters with name := q })) := by
  have hk : ∀ (p : String), p ≠ "" → ∀ x : Record,
      keeps env { defaultFilters with name := p } x =
        includes (env.toLowerCase x.name) (env.toLowerCase p) := by
    intro p hp x
    rw [keeps_name]
    simp [hp]
  have hin : ∀ s t : String, includes s t = true ↔ t.toList <:+: s.toList := by
    intro s t
    rw [includes_iff]
    constructor
    · rintro ⟨a, b, h⟩
      exact ⟨a, b, h.symm⟩
    · rintro ⟨a, b, h⟩
      exact ⟨a, b, h.symm⟩
  refine ⟨?_, ?_, ?_, ?_⟩
  · unfold filterData
    apply List.filter_congr
    intro x _
    rw [hk q hq, Bool.eq_iff_iff, hin]
    simp
  · intro r
    rw [mem_filterData, hk q hq, includes_iff]
  · intro q' hq' hlow
    unfold filterData
    apply List.filter_congr
    intro x _
    rw [hk q' hq', hk q hq, hlow]
  · intro r r' hr hr' hlow
    rw [mem_filterData, mem_filterData, hk q hq, hk q hq, hlow]
    simp [hr, hr']

theorem name_predicate_witness :
    ("Laptop" ≠ "" ∧ "LAPTOP" ≠ "" ∧ "NoSuchName" ≠ "") ∧
    filterData asciiEnv [laptop, chair] { defaultFilters with name := "Laptop" } = [laptop] ∧
    filterData asciiEnv [laptop, chair] { defaultFilters with name := "LAPTOP" } = [laptop] ∧
    filterData asciiEnv [laptop, chair] { defaultFilters with name := "NoSuchName" } = [] := by
  have l1 : decide ((asciiEnv.toLowerCase "Laptop").toList <:+:
      (asciiEnv.toLowerCase laptop.name).toList) = true := by decide
  have c1 : decide ((asciiEnv.toLowerCase "Laptop").toList <:+:
      (asciiEnv.toLowerCase chair.name).toList) = false := by decide
  have l2 : decide ((asciiEnv.toLowerCase "LAPTOP").toList <:+:
      (asciiEnv.toLowerCase laptop.name).toList) = true := by decide
  have c2 : decide ((asciiEnv.toLowerCase "LAPTOP").toList <:+:
      (asciiEnv.toLowerCase chair.name).toList) = false := by decide
  refine ⟨by decide, ?_, ?_, ?_⟩
  · rw [(name_predicate asciiEnv [laptop, chair] "Laptop" (by decide)).1]
    simp only [List.filter, l1, c1]
  · rw [(name_predicate asciiEnv [laptop, chair] "LAPTOP" (by decide)).1]
    simp only [List.filter, l2, c2]
  · exact ((name_predicate asciiEnv [laptop, chair] "NoSuchName" (by decide)).1).trans
      (by decide)

/-- C12 (rating predicate): when `parseFloat` reads the four thresholds of the
rating select as the numbers 4.5, 4, 3.5 and 3, then under the threshold `t`
(other fields unset) `filterData` returns, from every record list `R` and in
the order of `R`, exactly the records whose rating is at least that number,
the threshold included; under `Any` every record is returned. -/
theorem rating_predicate (env : JSEnv) (R : List Record)
    (h45 : env.parseFloat "4.5" = JSNumber.fin (9 / 2))
    (h4 : env.parseFloat "4" = JSNumber.fin 4)
    (h35 : env.parseFloat "3.5" = JSNumber.fin (7 / 2))
    (h3 : env.parseFloat "3" = JSNumber.fin 3) :
    filterData env R { defaultFilters with minRating := "4.5" } =
      R.filter (fun r => decide (9 / 2 ≤ r.rating)) ∧
    filterData env R { defaultFilters with minRating := "4" } =
      R.filter (fun r => decide (4 ≤ r.rating)) ∧
    filterData env R { defaultFilters with minRating := "3.5" } =
      R.filter (fun r => decide (7 / 2 ≤ r.rating)) ∧
    filterData env R { defaultFilters with minRating := "3" } =
      R.filter (fun r => decide (3 ≤ r.rating)) ∧
    filterData env R { defaultFilters with minRating := "Any" } = R ∧
    (∀ r, (r ∈ filterData env R { defaultFilters with minRating := "4.5" } ↔
        r ∈ R ∧ 9 / 2 ≤ r.rating) ∧
      (r ∈ filterData env R { defaultFilters with minRating := "4" } ↔
        r ∈ R ∧ 4 ≤ r.rating) ∧
      (r ∈ filterData env R { defaultFilters with minRating := "3.5" } ↔
        r ∈ R ∧ 7 / 2 ≤ r.rating) ∧
      (r ∈ filterData env R { defaultFilters with minRating := "3" } ↔
        r ∈ R ∧ 3 ≤ r.rating)) := by
  have hk : ∀ (t : String) (v : ℚ), t ≠ "Any" → env.parseFloat t = JSNumber.fin v →
      filterData env R { defaultFilters with minRating := t } =
        R.filter (fun r => decide (v ≤ r.rating)) := by
    intro t v ht hv
    unfold filterData
    apply List.filter_congr
    intro x _
    rw [keeps_minRating, hv]
    simp [ht, geNumber]
  have e45 := hk _ _ (by decide) h45
  have e4 := hk _ _ (by decide) h4
  have e35 := hk _ _ (by decide) h35
  have e3 := hk _ _ (by decide) h3
  refine ⟨e45, e4, e35, e3, ?_, fun r => ⟨?_, ?_, ?_, ?_⟩⟩
  · unfold filterData
    rw [List.filter_eq_self]
    intro a _
    exact keeps_default env a
  · rw [e45]
    simp
  · rw [e4]
    simp
  · rw [e35]
    simp
  · rw [e3]
    simp

theorem rating_predicate_witness :
    (asciiEnv.parseFloat "4.5" = JSNumber.fin (9 / 2) ∧
      asciiEnv.parseFloat "4" = JSNumber.fin 4 ∧
      asciiEnv.parseFloat "3.5" = JSNumber.fin (7 / 2) ∧
      asciiEnv.parseFloat "3" = JSNumber.fin 3) ∧
    filterData asciiEnv [laptop, chair] { defaultFilters with minRating := "4" } = [laptop] ∧
    filterData asciiEnv [laptop, chair] { defaultFilters with minRating := "3.5" } =
      [laptop, chair] := by
  have h45 : asciiEnv.parseFloat "4.5" = JSNumber.fin (9 / 2) := by
    simp [asciiEnv, decimalParseFloat]
    norm_num
  have h4 : asciiEnv.parseFloat "4" = JSNumber.fin 4 := by
    simp [asciiEnv, decimalParseFloat]
  have h35 : asciiEnv.parseFloat "3.5" = JSNumber.fin (7 / 2) := by
    simp [asciiEnv, decimalParseFloat]
    norm_num
  have h3 : asciiEnv.parseFloat "3" = JSNumber.fin 3 := by
    simp [asciiEnv, decimalParseFloat]
  refine ⟨⟨h45, h4, h35, h3⟩, ?_, ?_⟩
  · rw [(rating_predicate asciiEnv [laptop, chair] h45 h4 h35 h3).2.1]
    simp [List.filter, laptop, chair]
    norm_num
  · rw [(rating_predicate asciiEnv [laptop, chair] h45 h4 h35 h3).2.2.1]
    simp [List.filter, laptop, chair]
    norm_num

/-! ### The handlers -/

theorem laptop_ne_chair : laptop ≠ chair := by
  intro h
  have := congrArg Record.ref h
  simp [laptop, chair] at this

/-- C13 (deletion effect): `handleDelete` keeps exactly the records of the list
that are different from the deleted one, in their order; deleting a record
that is not in the list changes nothing; in a list of pairwise distinct
records deleting a member removes exactly one record; and from the list
`[laptop, chair]`, deleting the first record leaves `[chair]` displayed under
the default filter. -/
theorem handleDelete_effect (env : JSEnv) (s : TableState) (t : Record) :
    (handleDelete s t).data = s.data.filter (fun d => decide (d ≠ t)) ∧
    (∀ r, r ∈ (handleDelete s t).data ↔ r ∈ s.data ∧ r ≠ t) ∧
    (handleDelete s t).data.Sublist s.data ∧
    (t ∉ s.data → handleDelete s t = s) ∧
    (s.data.Nodup → t ∈ s.data → (handleDelete s t).data.length + 1 = s.data.length) ∧
    filteredData env (step env (mount env [laptop, chair]) (Event.delete laptop)) = [chair] := by
  refine ⟨?_, ?_, ?_, ?_, ?_, ?_⟩
  · unfold handleDelete
    apply List.filter_congr
    intro d _
    by_cases h : d = t <;> simp [h]
  · intro r
    simp [handleDelete]
  · exact List.filter_sublist _
  · intro ht
    have : s.data.filter (fun d => d != t) = s.data := by
      rw [List.filter_eq_self]
      intro a ha
      simp only [bne_iff_ne, ne_eq]
      exact fun e => ht (e ▸ ha)
    simp [handleDelete, this]
  · intro hnd ht
    have : (handleDelete s t).data = s.data.erase t := (hnd.erase_eq_filter t).symm
    rw [this, List.length_erase_of_mem ht]
    have := List.length_pos_of_mem ht
    omega
  · have hd : ([laptop, chair] : List Record).filter (fun d => d != laptop) = [chair] := by
      have h1 : (chair != laptop) = true := by simp [laptop_ne_chair.symm]
      simp [List.filter, h1]
    simp only [step, handleDelete, categoriesEffect, mount, filteredData, hd]
    unfold filterData
    rw [List.filter_eq_self]
    intro a _
    exact keeps_default env a

theorem handleDelete_effect_witness :
    ([laptop, chair].Nodup ∧ laptop ∈ [laptop, chair]) ∧
    (handleDelete (mount asciiEnv [laptop, chair]) laptop).data.length + 1 =
      (mount asciiEnv [laptop, chair]).data.length :=
  ⟨⟨by simp [laptop_ne_chair], by simp⟩,
    (handleDelete_effect asciiEnv (mount asciiEnv [laptop, chair]) laptop).2.2.2.2.1
      (by simp [mount, categoriesEffect, laptop_ne_chair]) (by simp [mount, categoriesEffect])⟩

/-- C14 (reset): `resetFilters` sets the filter object to the default one;
applying it twice gives the same state as applying it once; after it the
displayed rows are the whole current record list, which it leaves as it was. -/
theorem resetFilters_correct (env : JSEnv) (s : TableState) :
    (resetFilters s).filters =
      { name := "", categories := [], date := "", price := "Any", minRating := "Any" } ∧
    resetFilters (resetFilters s) = resetFilters s ∧
    filteredData env (resetFilters s) = (resetFilters s).data ∧
    filteredData env (resetFilters s) = s.data := by
  have h : filteredData env (resetFilters s) = s.data := by
    show List.filter (keeps env defaultFilters) s.data = s.data
    rw [List.filter_eq_self]
    intro a _
    exact keeps_default env a
  exact ⟨rfl, rfl, h, h⟩

/-- C15 (independent assignments commute): setting two distinct fields among
name, date, price and minRating through `handleChange` gives the same state
in either order, hence the same displayed rows; a category toggle commutes in
the same way with the assignment of any of these four fields. -/
theorem handleChange_comm (env : JSEnv) (s : TableState) (A B : InputName) (a b k : String)
    (hAB : A ≠ B) :
    handleChange (handleChange s (Target.input A a)) (Target.input B b) =
      handleChange (handleChange s (Target.input B b)) (Target.input A a) ∧
    filteredData env (handleChange (handleChange s (Target.input A a)) (Target.input B b)) =
      filteredData env (handleChange (handleChange s (Target.input B b)) (Target.input A a)) ∧
    handleChange (handleChange s (Target.checkbox k)) (Target.input A a) =
      handleChange (handleChange s (Target.input A a)) (Target.checkbox k) ∧
    filteredData env (handleChange (handleChange s (Target.checkbox k)) (Target.input A a)) =
      filteredData env (handleChange (handleChange s (Target.input A a)) (Target.checkbox k)) := by
  have h1 : handleChange (handleChange s (Target.input A a)) (Target.input B b) =
      handleChange (handleChange s (Target.input B b)) (Target.input A a) := by
    cases A <;> cases B <;> first | exact absurd rfl hAB | rfl
  have h2 : handleChange (handleChange s (Target.checkbox k)) (Target.input A a) =
      handleChange (handleChange s (Target.input A a)) (Target.checkbox k) := by
    cases A <;> rfl
  exact ⟨h1, by rw [h1], h2, by rw [h2]⟩

theorem handleChange_comm_witness :
    InputName.name ≠ InputName.price ∧
    handleChange (handleChange (mount asciiEnv [laptop, chair]) (Target.input InputName.name "lap"))
        (Target.input InputName.price "High") =
      handleChange
        (handleChange (mount asciiEnv [laptop, chair]) (Target.input InputName.price "High"))
        (Target.input InputName.name "lap") :=
  ⟨by decide,
    (handleChange_comm asciiEnv (mount asciiEnv [laptop, chair]) InputName.name InputName.price
      "lap" "High" "electronics" (by decide)).1⟩

/-- C16 (frame of the operations): `handleChange` on one of the four named
inputs sets the filter field of that name to the new value and leaves the
other four filter fields, the record list, the category list and the dropdown
flag as they were; a category toggle changes only `filters.categories`;
`handleDelete` leaves the filter object and the dropdown flag; `resetFilters`
leaves the record list and the dropdown flag; the dropdown toggle flips the
flag only and leaves the record list and the filter object, hence the
displayed rows. -/
theorem handlers_frame (env : JSEnv) (s : TableState) (n : InputName) (v k : String)
    (item : Record) :
    ((handleChange s (Target.input n v)).data = s.data ∧
      (handleChange s (Target.input n v)).categories = s.categories ∧
      (handleChange s (Target.input n v)).showCategoryDropdown = s.showCategoryDropdown ∧
      (handleChange s (Target.input n v)).filters.categories = s.filters.categories ∧
      (handleChange s (Target.input n v)).filters.name =
        (if n = InputName.name then v else s.filters.name) ∧
      (handleChange s (Target.input n v)).filters.date =
        (if n = InputName.date then v else s.filters.date) ∧
      (handleChange s (Target.input n v)).filters.price =
        (if n = InputName.price then v else s.filters.price) ∧
      (handleChange s (Target.input n v)).filters.minRating =
        (if n = InputName.minRating then v else s.filters.minRating)) ∧
    ((handleChange s (Target.checkbox k)).data = s.data ∧
      (handleChange s (Target.checkbox k)).categories = s.categories ∧
      (handleChange s (Target.checkbox k)).showCategoryDropdown = s.showCategoryDropdown ∧
      (handleChange s (Target.checkbox k)).filters.name = s.filters.name ∧
      (handleChange s (Target.checkbox k)).filters.date = s.filters.date ∧
      (handleChange s (Target.checkbox k)).filters.price = s.filters.price ∧
      (handleChange s (Target.checkbox k)).filters.minRating = s.filters.minRating) ∧
    ((handleDelete s item).filters = s.filters ∧
      (handleDelete s item).showCategoryDropdown = s.showCategoryDropdown ∧
      (step env s (Event.delete item)).filters = s.filters ∧
      (step env s (Event.delete item)).showCategoryDropdown = s.showCategoryDropdown) ∧
    ((resetFilters s).data = s.data ∧
      (resetFilters s).categories = s.categories ∧
      (resetFilters s).showCategoryDropdown = s.showCategoryDropdown) ∧
    ((toggleCategoryDropdown s).data = s.data ∧
      (toggleCategoryDropdown s).categories = s.categories ∧
      (toggleCategoryDropdown s).filters = s.filters ∧
      (toggleCategoryDropdown s).showCategoryDropdown = (!s.showCategoryDropdown) ∧
      filteredData env (toggleCategoryDropdown s) = filteredData env s) := by
  refine ⟨?_, ⟨rfl, rfl, rfl, rfl, rfl, rfl, rfl⟩, ⟨rfl, rfl, rfl, rfl⟩, ⟨rfl, rfl, rfl⟩,
    ⟨rfl, rfl, rfl, rfl, rfl⟩⟩
  cases n <;> simp [handleChange, Filters.assign]

/-! ### The category toggle -/

/-- The array left by the checkbox branch, in terms of list operations. -/
theorem newCategories_eq (categories : List String) (value : String) :
    newCategories categories value =
      if value ∈ categories then categories.erase value else categories ++ [value] := by
  unfold newCategories
  by_cases h : value ∈ categories
  · simp [h, List.eraseIdx_indexOf_eq_erase]
  · simp [h]

/-- C17 (category toggle): when the selected categories have no duplicates,
after a checkbox `handleChange` with value `k` the key `k` is selected iff it
was not selected before, and every other key is selected iff it was before; a
key that was present is removed, a key that was absent is appended. -/
theorem toggle_membership (s : TableState) (k : String)
    (hnd : s.filters.categories.Nodup) :
    (k ∈ (handleChange s (Target.checkbox k)).filters.categories ↔
      k ∉ s.filters.categories) ∧
    (∀ k', k' ≠ k →
      (k' ∈ (handleChange s (Target.checkbox k)).filters.categories ↔
        k' ∈ s.filters.categories)) ∧
    (k ∈ s.filters.categories →
      (handleChange s (Target.checkbox k)).filters.categories = s.filters.categories.erase k) ∧
    (k ∉ s.filters.categories →
      (handleChange s (Target.checkbox k)).filters.categories = s.filters.categories ++ [k]) := by
  have hc : (handleChange s (Target.checkbox k)).filters.categories =
      newCategories s.filters.categories k := rfl
  rw [hc, newCategories_eq]
  by_cases h : k ∈ s.filters.categories
  · simp only [h, if_true, not_true_eq_false, iff_false, forall_true_left, IsEmpty.forall_iff,
      and_true, true_and]
    refine ⟨fun hk => ?_, fun k' hk' => ?_⟩
    · exact ((hnd.mem_erase_iff).1 hk).1 rfl
    · rw [hnd.mem_erase_iff]
      exact ⟨fun h' => h'.2, fun h' => ⟨hk', h'⟩⟩
  · simp only [h, if_false, not_false_eq_true, iff_true, IsEmpty.forall_iff, forall_true_left,
      and_true, true_and]
    refine ⟨by simp, fun k' hk' => ?_⟩
    simp [hk']

theorem toggle_membership_witness :
    (["electronics", "furniture"] : List String).Nodup ∧
    (handleChange ⟨[laptop, chair], [], ⟨"", ["electronics", "furniture"], "", "Any", "Any"⟩, true⟩
        (Target.checkbox "electronics")).filters.categories = ["furniture"] ∧
    (handleChange ⟨[laptop, chair], [], ⟨"", ["electronics", "furniture"], "", "Any", "Any"⟩, true⟩
        (Target.checkbox "toys")).filters.categories = ["electronics", "furniture", "toys"] :=
  ⟨by decide,
    ((toggle_membership
      ⟨[laptop, chair], [], ⟨"", ["electronics", "furniture"], "", "Any", "Any"⟩, true⟩
      "electronics" (by decide)).2.2.1 (by decide)).trans (by decide),
    ((toggle_membership
      ⟨[laptop, chair], [], ⟨"", ["electronics", "furniture"], "", "Any", "Any"⟩, true⟩
      "toys" (by decide)).2.2.2 (by decide)).trans (by decide)⟩

/-- C19 (deletion commutes with filtering): the rows displayed after
`handleDelete` of `t` are the rows displayed before, without those equal to
`t`, in the same order; so a row is displayed afterwards iff it was displayed
before and is not `t`, and no row hidden before becomes displayed. -/
theorem delete_filter_comm (env : JSEnv) (s : TableState) (t : Record) :
    filterData env (s.data.filter (fun d => d != t)) s.filters =
      (filterData env s.data s.filters).filter (fun d => d != t) ∧
    filteredData env (handleDelete s t) = (filteredData env s).filter (fun d => d != t) ∧
    filteredData env (step env s (Event.delete t)) =
      (filteredData env s).filter (fun d => d != t) ∧
    (∀ r, r ∈ filteredData env (handleDelete s t) ↔ r ∈ filteredData env s ∧ r ≠ t) ∧
    (filteredData env (handleDelete s t)).Sublist (filteredData env s) := by
  have h : filterData env (s.data.filter (fun d => d != t)) s.filters =
      (filterData env s.data s.filters).filter (fun d => d != t) := by
    unfold filterData
    rw [List.filter_filter, List.filter_filter]
    apply List.filter_congr
    intro a _
    exact Bool.and_comm _ _
  have h' : filteredData env (handleDelete s t) =
      (filteredData env s).filter (fun d => d != t) := h
  refine ⟨h, h', h, fun r => ?_, ?_⟩
  · rw [h']
    simp
  · rw [h']
    exact List.filter_sublist _

/-- The predicate of `filterData` reads the selected categories only through
their members. -/
theorem keeps_congr_categories (env : JSEnv) (f : Filters) (c₁ c₂ : List String)
    (h : ∀ x, x ∈ c₁ ↔ x ∈ c₂) (r : Record) :
    keeps env { f with categories := c₁ } r = keeps env { f with categories := c₂ } r := by
  have hlen : (c₁.length == 0) = (c₂.length == 0) := by
    cases c₁ with
    | nil =>
      cases c₂ with
      | nil => rfl
      | cons y ys => exact absurd ((h y).2 (List.mem_cons_self y ys)) (List.not_mem_nil y)
    | cons x xs =>
      cases c₂ with
      | nil => exact absurd ((h x).1 (List.mem_cons_self x xs)) (List.not_mem_nil x)
      | cons y ys => rfl
  have hcont : c₁.contains (env.toLowerCase r.category) =
      c₂.contains (env.toLowerCase r.category) := by
    rw [Bool.eq_iff_iff]
    simpa using h _
  simp only [keeps, hlen, hcont]

/-- C20 (toggle keeps the selection duplicate-free, twice is neutral): when the
selected categories have no duplicates, they have none after one toggle of
`k`; after two toggles of `k` the selected keys are the same as before, and
`filterData` returns the same rows as before on every record list. -/
theorem toggle_twice (env : JSEnv) (s : TableState) (k : String)
    (hnd : s.filters.categories.Nodup) :
    (handleChange s (Target.checkbox k)).filters.categories.Nodup ∧
    (∀ x, x ∈ (handleChange (handleChange s (Target.checkbox k))
        (Target.checkbox k)).filters.categories ↔ x ∈ s.filters.categories) ∧
    (∀ R : List Record,
      filterData env R (handleChange (handleChange s (Target.checkbox k))
        (Target.checkbox k)).filters = filterData env R s.filters) := by
  have hc : ∀ u : TableState, (handleChange u (Target.checkbox k)).filters =
      { u.filters with categories := newCategories u.filters.categories k } := fun _ => rfl
  have hmem : ∀ x, x ∈ newCategories (newCategories s.filters.categories k) k ↔
      x ∈ s.filters.categories := by
    intro x
    by_cases h : k ∈ s.filters.categories
    · have h1 : newCategories s.filters.categories k = s.filters.categories.erase k := by
        rw [newCategories_eq, if_pos h]
      have h2 : k ∉ s.filters.categories.erase k := fun hk => ((hnd.mem_erase_iff).1 hk).1 rfl
      rw [h1, newCategories_eq, if_neg h2, List.mem_append, List.mem_singleton,
        hnd.mem_erase_iff]
      constructor
      · rintro (h' | rfl)
        · exact h'.2
        · exact h
      · intro hx
        by_cases hxk : x = k
        · exact Or.inr hxk
        · exact Or.inl ⟨hxk, hx⟩
    · have h1 : newCategories s.filters.categories k = s.filters.categories ++ [k] := by
        rw [newCategories_eq, if_neg h]
      have h2 : k ∈ s.filters.categories ++ [k] := by simp
      rw [h1, newCategories_eq, if_pos h2, List.erase_append_right _ h]
      simp
  refine ⟨?_, ?_, ?_⟩
  · rw [hc, newCategories_eq]
    by_cases h : k ∈ s.filters.categories
    · simp only [h, if_true]
      exact hnd.erase k
    · simp only [h, if_false]
      rw [List.nodup_append]
      refine ⟨hnd, List.nodup_singleton k, ?_⟩
      intro a ha hb
      rw [List.mem_singleton.1 hb] at ha
      exact h ha
  · intro x
    rw [hc, hc]
    exact hmem x
  · intro R
    unfold filterData
    apply List.filter_congr
    intro r _
    rw [hc, hc]
    exact keeps_congr_categories env s.filters _ _ hmem r

theorem toggle_twice_witness :
    (["electronics", "furniture"] : List String).Nodup ∧
    (handleChange
      (handleChange
        ⟨[laptop, chair], [], ⟨"", ["electronics", "furniture"], "", "Any", "Any"⟩, true⟩
        (Target.checkbox "electronics"))
      (Target.checkbox "electronics")).filters.categories = ["furniture", "electronics"] ∧
    filterData asciiEnv [laptop, chair]
      (handleChange
        (handleChange
          ⟨[laptop, chair], [], ⟨"", ["electronics", "furniture"], "", "Any", "Any"⟩, true⟩
          (Target.checkbox "electronics"))
        (Target.checkbox "electronics")).filters =
      filterData asciiEnv [laptop, chair] ⟨"", ["electronics", "furniture"], "", "Any", "Any"⟩ :=
  ⟨by decide, by decide,
    (toggle_twice asciiEnv
      ⟨[laptop, chair], [], ⟨"", ["electronics", "furniture"], "", "Any", "Any"⟩, true⟩
      "electronics" (by decide)).2.2 [laptop, chair]⟩

/-! ### The seed array -/

theorem world_read_append (w : World) (arr : List Record) (ref : Nat)
    (h : ref < w.heap.length) :
    ({ w with heap := w.heap ++ [arr] } : World).read ref = w.read ref := by
  simp [World.read, List.getElem?_append_left h]

/-- A render adds an array and changes neither an existing array nor the state. -/
theorem world_render_spec (env : JSEnv) (seed : List Record) (w : World)
    (h : World.SeedKept seed w) :
    World.SeedKept seed (World.render env w) ∧ (World.render env w).state = w.state := by
  obtain ⟨h0, h1, h2⟩ := h
  have hpos : 0 < w.heap.length := by omega
  refine ⟨⟨h0, ?_, ?_⟩, ?_⟩
  · simp only [World.render]
    rw [List.getElem?_append_left hpos]
    exact h1
  · simp only [World.render, List.length_append, List.length_singleton]
    omega
  · simp [World.state, World.render, World.read, List.getElem?_append_left h2]

theorem world_categoriesEffect_spec (env : JSEnv) (seed : List Record) (w : World)
    (h : World.SeedKept seed w) :
    World.SeedKept seed (World.categoriesEffect env w) ∧
      (World.categoriesEffect env w).state = categoriesEffect env w.state :=
  ⟨h, rfl⟩

theorem world_handleDelete_spec (seed : List Record) (w : World) (item : Record)
    (h : World.SeedKept seed w) :
    World.SeedKept seed (World.handleDelete w item) ∧
      (World.handleDelete w item).state = handleDelete w.state item := by
  obtain ⟨h0, h1, h2⟩ := h
  have hpos : 0 < w.heap.length := by omega
  refine ⟨⟨h0, ?_, ?_⟩, ?_⟩
  · simp only [World.handleDelete]
    rw [List.getElem?_append_left hpos]
    exact h1
  · simp [World.handleDelete]
  · simp [World.state, World.handleDelete, World.read, handleDelete]

/-- Every user action keeps the seed array and acts on the state as `step`. -/
theorem world_step_spec (env : JSEnv) (seed : List Record) (w : World) (ev : Event)
    (h : World.SeedKept seed w) :
    World.SeedKept seed (World.step env w ev) ∧
      (World.step env w ev).state = step env w.state ev := by
  cases ev with
  | change target =>
    have hw : World.SeedKept seed { w with filters := (handleChange w.state target).filters } := h
    obtain ⟨a, b⟩ := world_render_spec env seed _ hw
    refine ⟨a, ?_⟩
    simp only [World.step, step]
    rw [b]
    cases target <;> rfl
  | delete item =>
    obtain ⟨a1, b1⟩ := world_handleDelete_spec seed w item h
    obtain ⟨a2, b2⟩ := world_render_spec env seed _ a1
    obtain ⟨a3, b3⟩ := world_categoriesEffect_spec env seed _ a2
    obtain ⟨a4, b4⟩ := world_render_spec env seed _ a3
    refine ⟨a4, ?_⟩
    simp only [World.step, step]
    rw [b4, b3, b2, b1]
  | reset =>
    have hw : World.SeedKept seed { w with filters := (resetFilters w.state).filters } := h
    obtain ⟨a, b⟩ := world_render_spec env seed _ hw
    refine ⟨a, ?_⟩
    simp only [World.step, step]
    rw [b]
    rfl
  | toggleDropdown =>
    have hw : World.SeedKept seed { w with showCategoryDropdown := !w.showCategoryDropdown } := h
    obtain ⟨a, b⟩ := world_render_spec env seed _ hw
    refine ⟨a, ?_⟩
    simp only [World.step, step]
    rw [b]
    rfl

theorem world_mount_spec (env : JSEnv) (seed : List Record) :
    World.SeedKept seed (World.mount env seed) ∧ (World.mount env seed).state = mount env seed := by
  have h0 : World.SeedKept seed
      { heap := [seed], initialData := 0, data := 0, filteredData := 0, categories := [],
        filters := defaultFilters, showCategoryDropdown := false } := by
    simp [World.SeedKept]
  obtain ⟨a1, b1⟩ := world_render_spec env seed _ h0
  obtain ⟨a2, b2⟩ := world_categoriesEffect_spec env seed _ a1
  obtain ⟨a3, b3⟩ := world_render_spec env seed _ a2
  refine ⟨a3, ?_⟩
  unfold World.mount
  rw [b3, b2, b1]
  simp [World.state, World.read, mount]

theorem world_run_spec (env : JSEnv) (seed : List Record) (events : List Event) (w : World)
    (h : World.SeedKept seed w) :
    World.SeedKept seed (World.run env w events) ∧
      (World.run env w events).state = run env w.state events := by
  induction events generalizing w with
  | nil => exact ⟨h, rfl⟩
  | cons ev evs ih =>
    obtain ⟨a, b⟩ := world_step_spec env seed w ev h
    obtain ⟨a', b'⟩ := ih (World.step env w ev) a
    refine ⟨a', ?_⟩
    simp only [World.run, run, List.foldl_cons] at b' ⊢
    rw [b', b]

/-- C18 (seed immutability): after any sequence of filter changes, category
toggles, deletions, resets and dropdown toggles, `initialData` still refers to
the same array and that array still holds the seed records, while the state
is the one computed by the handlers on values; in particular, after deleting
the first row of `[laptop, chair]` the seed array still contains `laptop`,
although `data` now holds `[chair]`. -/
theorem seed_immutable (env : JSEnv) (seed : List Record) (events : List Event) :
    (World.run env (World.mount env seed) events).initialData =
      (World.mount env seed).initialData ∧
    (World.run env (World.mount env seed) events).read
      (World.run env (World.mount env seed) events).initialData = seed ∧
    (World.run env (World.mount env seed) events).state = run env (mount env seed) events ∧
    (laptop ∈ (World.run env (World.mount env [laptop, chair]) [Event.delete laptop]).read
        (World.run env (World.mount env [laptop, chair]) [Event.delete laptop]).initialData ∧
      (World.run env (World.mount env [laptop, chair]) [Event.delete laptop]).state.data =
        [chair]) := by
  have hm := world_mount_spec env seed
  obtain ⟨⟨h0, h1, _⟩, hs⟩ := world_run_spec env seed events _ hm.1
  have key : ∀ (sd : List Record) (evs : List Event),
      (World.run env (World.mount env sd) evs).read
        (World.run env (World.mount env sd) evs).initialData = sd := by
    intro sd evs
    obtain ⟨⟨k0, k1, _⟩, _⟩ := world_run_spec env sd evs _ (world_mount_spec env sd).1
    simp [World.read, k0, k1]
  refine ⟨?_, key seed events, ?_, ?_, ?_⟩
  · rw [h0, hm.1.1]
  · rw [hs, hm.2]
  · rw [key]
    simp
  · obtain ⟨_, hs'⟩ := world_run_spec env [laptop, chair] [Event.delete laptop] _
      (world_mount_spec env [laptop, chair]).1
    rw [hs', (world_mount_spec env [laptop, chair]).2]
    have h1 : (chair != laptop) = true := by simp [laptop_ne_chair.symm]
    simp [run, step, handleDelete, categoriesEffect, mount, List.filter, h1]

end TableWithFilters
